import Mathlib

/-!
# Verification of the stock-portfolio-tracker position accounting core

Shallow embedding of `src/portfolio_manager.py` (together with the data
model of `src/database.py`).  Python floats are modelled as exact
rationals (`ℚ`); the spec states that no rounding happens inside the
engine.  The Python dict `holdings` (insertion ordered, keyed by ticker)
is modelled as an association list `List (String × Holding)` with
in-place update; the SQLAlchemy store is modelled as an explicit record
of portfolio ids, transaction rows and snapshot rows.  Fallible
functions returning `None` in Python return `Option` values here; the
code paths reachable only through a raised exception (I/O failure inside
`try`) are outside the model, so the `except` branches are not
represented.
-/

/-- A transaction row (table `transactions` of `database.py`):
portfolio id, ticker, transaction type (the strings "buy" / "sell"),
share quantity, price per share, transaction date (modelled as a
natural-number timestamp) and a free-text note. -/
structure Txn where
  portfolio_id : Nat
  ticker : String
  transaction_type : String
  shares : ℚ
  price_per_share : ℚ
  transaction_date : Nat
  notes : String
deriving DecidableEq, Repr

/-- The per-ticker accumulator of `get_portfolio_holdings`:
`{'total_shares': _, 'total_cost': _}`. -/
structure Holding where
  total_shares : ℚ
  total_cost : ℚ
deriving DecidableEq, Repr

/-- One row of the holdings DataFrame produced by
`get_portfolio_holdings`. -/
structure HoldingsRow where
  ticker : String
  total_shares : ℚ
  avg_cost_basis : ℚ
  total_cost : ℚ
deriving DecidableEq, Repr

/-- One row of the positions DataFrame produced by
`get_portfolio_performance`. -/
structure PerfRow where
  ticker : String
  shares : ℚ
  avg_cost_basis : ℚ
  current_price : ℚ
  total_cost : ℚ
  current_value : ℚ
  gain_loss_dollar : ℚ
  gain_loss_percent : ℚ
deriving DecidableEq, Repr

/-- The dictionary returned by `get_portfolio_performance`. -/
structure Performance where
  positions : List PerfRow
  total_cost : ℚ
  total_current_value : ℚ
  total_gain_loss_dollar : ℚ
  total_gain_loss_percent : ℚ
deriving DecidableEq, Repr

/-- A snapshot row (table `portfolio_snapshots` of `database.py`). -/
structure Snapshot where
  portfolio_id : Nat
  total_value : ℚ
  snapshot_date : Nat
deriving DecidableEq, Repr

/-- The durable store: existing portfolio ids, the transaction table in
insertion order, and the snapshot table in insertion order. -/
structure Store where
  portfolios : List Nat
  transactions : List Txn
  snapshots : List Snapshot
deriving DecidableEq, Repr

/-- Lookup in the insertion-ordered holdings dictionary
(`holdings[ticker]` / `ticker in holdings`). -/
def lookupH : List (String × Holding) → String → Option Holding
  | [], _ => none
  | (k, v) :: rest, t => if k = t then some v else lookupH rest t

/-- In-place update of the holdings dictionary: replaces the value at an
existing key, keeping its position; appends at the end otherwise (Python
dict insertion-order semantics). -/
def setH : List (String × Holding) → String → Holding → List (String × Holding)
  | [], t, v => [(t, v)]
  | (k, w) :: rest, t, v => if k = t then (t, v) :: rest else (k, w) :: setH rest t v

/-- The value of a ticker's accumulator, defaulting to the fresh
`{'total_shares': 0, 'total_cost': 0}` entry when the ticker has not
been seen. -/
def currentHolding (hs : List (String × Holding)) (t : String) : Holding :=
  (lookupH hs t).getD ⟨0, 0⟩

/-- One iteration of the transaction loop of `get_portfolio_holdings`
(lines 142-160): ensure the ticker has an accumulator entry, then apply
the buy / sell update. A sell against non-positive holdings only prints
a warning and leaves the accumulator values untouched. -/
def processTxn (hs : List (String × Holding)) (txn : Txn) : List (String × Holding) :=
  let hs1 := if (lookupH hs txn.ticker).isSome then hs else hs ++ [(txn.ticker, ⟨0, 0⟩)]
  let cur := currentHolding hs1 txn.ticker
  if txn.transaction_type = "buy" then
    setH hs1 txn.ticker ⟨cur.total_shares + txn.shares, cur.total_cost + txn.shares * txn.price_per_share⟩
  else if txn.transaction_type = "sell" then
    if cur.total_shares > 0 then
      let avg_cost := cur.total_cost / cur.total_shares
      setH hs1 txn.ticker ⟨cur.total_shares - txn.shares, cur.total_cost - txn.shares * avg_cost⟩
    else
      hs1
  else
    hs1

/-- Emission step of `get_portfolio_holdings` (lines 162-175): one row
per ticker with strictly positive shares, with the average cost basis
computed as total cost over total shares. -/
def holdingsRows (hs : List (String × Holding)) : List HoldingsRow :=
  hs.filterMap fun p =>
    if p.2.total_shares > 0 then
      some ⟨p.1, p.2.total_shares, p.2.total_cost / p.2.total_shares, p.2.total_cost⟩
    else
      none

/-- Stable insertion of a transaction into a date-ordered list: the new
transaction goes after every transaction with an earlier or equal date. -/
def insertTxn (x : Txn) : List Txn → List Txn
  | [] => [x]
  | y :: ys =>
    if y.transaction_date ≤ x.transaction_date then y :: insertTxn x ys
    else x :: y :: ys

/-- Stable sort by transaction date (the `ORDER BY transaction_date`
of the ledger query, ties keeping storage order). -/
def orderByDate (l : List Txn) : List Txn :=
  l.foldl (fun acc x => insertTxn x acc) []

/-- The ledger query of `get_portfolio_holdings` (lines 131-133): all
transactions of the portfolio, ordered by transaction date. -/
def listTransactions (s : Store) (portfolio_id : Nat) : List Txn :=
  orderByDate (s.transactions.filter fun x => x.portfolio_id = portfolio_id)

/-- `get_portfolio_holdings` (lines 110-179): `none` when the portfolio
does not exist; otherwise the rows of the holdings DataFrame (the empty
table when the portfolio has no transactions). -/
def get_portfolio_holdings (s : Store) (portfolio_id : Nat) : Option (List HoldingsRow) :=
  if s.portfolios.contains portfolio_id then
    let transactions := listTransactions s portfolio_id
    if transactions = [] then
      some []
    else
      some (holdingsRows (transactions.foldl processTxn []))
  else
    none

/-- Python's `str.lower()`, character by character (the transaction
types and tickers in play are ASCII, where this matches exactly). -/
def strLower (s : String) : String :=
  ⟨s.data.map Char.toLower⟩

/-- Python's `str.upper()`, character by character. -/
def strUpper (s : String) : String :=
  ⟨s.data.map Char.toUpper⟩

/-- `add_transaction` (lines 41-107): validation of type, shares and
price, then existence check, then append of the normalized row.  Returns
the success flag together with the resulting store. -/
def add_transaction (s : Store) (portfolio_id : Nat) (ticker : String)
    (transaction_type : String) (shares : ℚ) (price_per_share : ℚ)
    (transaction_date : Nat) (notes : String) : Bool × Store :=
  if ¬ (strLower transaction_type = "buy" ∨ strLower transaction_type = "sell") then
    (false, s)
  else if shares ≤ 0 then
    (false, s)
  else if price_per_share ≤ 0 then
    (false, s)
  else if s.portfolios.contains portfolio_id then
    (true, { s with transactions := s.transactions ++
      [⟨portfolio_id, strUpper ticker, strLower transaction_type, shares,
        price_per_share, transaction_date, notes⟩] })
  else
    (false, s)

/-- The price source `get_current_price` of `stock_fetcher.py`, treated
as an opaque capability: a ticker either has a current price or yields
no data (`None`). -/
def PriceSource : Type := String → Option ℚ

/-- One iteration of the pricing loop of `get_portfolio_performance`
(lines 217-247): skip the row if the price lookup fails, otherwise
append the performance row and add the position's cost and current value
into the running totals. -/
def perfStep (prices : PriceSource) (acc : List PerfRow × ℚ × ℚ) (row : HoldingsRow) :
    List PerfRow × ℚ × ℚ :=
  match prices row.ticker with
  | none => acc
  | some current_price =>
    let current_value := row.total_shares * current_price
    let gain_loss_dollar := current_value - row.total_cost
    let gain_loss_percent :=
      if row.total_cost > 0 then gain_loss_dollar / row.total_cost * 100 else 0
    (acc.1 ++ [⟨row.ticker, row.total_shares, row.avg_cost_basis, current_price,
       row.total_cost, current_value, gain_loss_dollar, gain_loss_percent⟩],
     acc.2.1 + row.total_cost, acc.2.2 + current_value)

/-- The pricing loop of `get_portfolio_performance` run over all holdings
rows, starting from an empty positions list and zero totals. -/
def perfOfRows (prices : PriceSource) (rows : List HoldingsRow) : List PerfRow × ℚ × ℚ :=
  rows.foldl (perfStep prices) ([], 0, 0)

/-- The zeroed result that `get_portfolio_performance` returns when
`get_portfolio_holdings` yields `None` or an empty table. -/
def emptyPerformance : Performance :=
  ⟨[], 0, 0, 0, 0⟩

/-- `get_portfolio_performance` (lines 182-266): holdings that are
`None` or empty give the zeroed result; otherwise each priceable row is
enriched and the aggregates are summed over the priced rows only.
`none` is reachable in the Python only through a raised exception, which
the model does not produce. -/
def get_portfolio_performance (prices : PriceSource) (s : Store) (portfolio_id : Nat) :
    Option Performance :=
  match get_portfolio_holdings s portfolio_id with
  | none => some emptyPerformance
  | some rows =>
    if rows = [] then
      some emptyPerformance
    else
      let r := perfOfRows prices rows
      let total_cost := r.2.1
      let total_current_value := r.2.2
      let total_gain_loss_dollar := total_current_value - total_cost
      let total_gain_loss_percent :=
        if total_cost > 0 then total_gain_loss_dollar / total_cost * 100 else 0
      some ⟨r.1, total_cost, total_current_value, total_gain_loss_dollar,
        total_gain_loss_percent⟩

/-- `save_portfolio_snapshot` (lines 269-311): computes the current
performance, re-checks that the portfolio exists, and appends a snapshot
with the aggregate current value stamped `now`.  Returns the success
flag together with the resulting store. -/
def save_portfolio_snapshot (prices : PriceSource) (s : Store) (portfolio_id : Nat)
    (now : Nat) : Bool × Store :=
  match get_portfolio_performance prices s portfolio_id with
  | none => (false, s)
  | some performance =>
    if s.portfolios.contains portfolio_id then
      (true, { s with snapshots := s.snapshots ++
        [⟨portfolio_id, performance.total_current_value, now⟩] })
    else
      (false, s)

/-- The performance row `perfStep` builds for a holdings row whose price
lookup succeeds, with the looked-up price written as `getD 0` (the
default is never used on a successful lookup). -/
def pricedRow (prices : PriceSource) (row : HoldingsRow) : PerfRow :=
  let current_price := (prices row.ticker).getD 0
  let current_value := row.total_shares * current_price
  let gain_loss_dollar := current_value - row.total_cost
  let gain_loss_percent :=
    if row.total_cost > 0 then gain_loss_dollar / row.total_cost * 100 else 0
  ⟨row.ticker, row.total_shares, row.avg_cost_basis, current_price, row.total_cost,
    current_value, gain_loss_dollar, gain_loss_percent⟩

/-! ## Association-list infrastructure lemmas -/

theorem lookupH_setH_self (l : List (String × Holding)) (t : String) (v : Holding) :
    lookupH (setH l t v) t = some v := by
  induction l with
  | nil => simp [setH, lookupH]
  | cons p rest ih =>
    obtain ⟨k, w⟩ := p
    by_cases h : k = t
    · simp [setH, lookupH, h]
    · simp [setH, lookupH, h, ih]

theorem lookupH_setH_ne (l : List (String × Holding)) (t u : String) (v : Holding)
    (h : t ≠ u) : lookupH (setH l t v) u = lookupH l u := by
  induction l with
  | nil => simp [setH, lookupH, h]
  | cons p rest ih =>
    obtain ⟨k, w⟩ := p
    by_cases hk : k = t
    · subst hk
      simp [setH, lookupH, h]
    · simp only [setH, if_neg hk, lookupH]
      by_cases hu : k = u
      · simp [hu]
      · simp [hu, ih]

theorem lookupH_append_none (l1 l2 : List (String × Holding)) (t : String)
    (h : lookupH l1 t = none) : lookupH (l1 ++ l2) t = lookupH l2 t := by
  induction l1 with
  | nil => simp
  | cons p rest ih =>
    obtain ⟨k, w⟩ := p
    by_cases hk : k = t
    · simp [lookupH, hk] at h
    · simp only [lookupH, if_neg hk] at h
      simp [lookupH, hk, ih h]

theorem lookupH_append_some (l1 l2 : List (String × Holding)) (t : String) (v : Holding)
    (h : lookupH l1 t = some v) : lookupH (l1 ++ l2) t = some v := by
  induction l1 with
  | nil => simp [lookupH] at h
  | cons p rest ih =>
    obtain ⟨k, w⟩ := p
    by_cases hk : k = t
    · simp only [lookupH, if_pos hk] at h
      simp [lookupH, hk, h]
    · simp only [lookupH, if_neg hk] at h
      simp [lookupH, hk, ih h]

theorem currentHolding_append_zero (hs : List (String × Holding)) (tk t : String) :
    currentHolding (hs ++ [(tk, ⟨0, 0⟩)]) t = currentHolding hs t := by
  cases hq : lookupH hs t with
  | none =>
    rw [currentHolding, lookupH_append_none _ _ _ hq, currentHolding, hq]
    by_cases h : tk = t
    · simp [lookupH, h]
    · simp [lookupH, h]
  | some v =>
    rw [currentHolding, lookupH_append_some _ _ _ _ hq, currentHolding, hq]

theorem lookupH_eq_none (l : List (String × Holding)) (t : String) :
    lookupH l t = none ↔ t ∉ l.map Prod.fst := by
  induction l with
  | nil => simp [lookupH]
  | cons p rest ih =>
    obtain ⟨k, w⟩ := p
    by_cases hk : k = t
    · simp [lookupH, hk]
    · simp [lookupH, hk, ih, Ne.symm hk]

theorem mem_of_lookupH (l : List (String × Holding)) (t : String) (v : Holding)
    (h : lookupH l t = some v) : (t, v) ∈ l := by
  induction l with
  | nil => simp [lookupH] at h
  | cons p rest ih =>
    obtain ⟨k, w⟩ := p
    by_cases hk : k = t
    · simp [lookupH, hk] at h
      simp [hk, h]
    · simp only [lookupH, if_neg hk] at h
      exact List.mem_cons_of_mem _ (ih h)

theorem lookupH_of_mem (l : List (String × Holding)) (t : String) (v : Holding)
    (hnd : (l.map Prod.fst).Nodup) (h : (t, v) ∈ l) : lookupH l t = some v := by
  induction l with
  | nil => simp at h
  | cons p rest ih =>
    obtain ⟨k, w⟩ := p
    simp only [List.map_cons, List.nodup_cons] at hnd
    rcases List.mem_cons.mp h with heq | hmem
    · cases heq
      simp [lookupH]
    · have hk : k ≠ t := by
        intro hkt
        subst hkt
        exact hnd.1 (List.mem_map.mpr ⟨(k, v), hmem, rfl⟩)
      simp [lookupH, hk, ih hnd.2 hmem]

theorem map_fst_setH (l : List (String × Holding)) (t : String) (v : Holding)
    (h : t ∈ l.map Prod.fst) : (setH l t v).map Prod.fst = l.map Prod.fst := by
  induction l with
  | nil => simp at h
  | cons p rest ih =>
    obtain ⟨k, w⟩ := p
    by_cases hk : k = t
    · simp [setH, hk]
    · simp only [List.map_cons] at h
      rcases List.mem_cons.mp h with heq | hmem
    -- heq : t = k, contradicting hk
      · exact absurd heq.symm hk
      · simp [setH, hk, ih hmem]

theorem map_fst_processTxn (hs : List (String × Holding)) (x : Txn) :
    (processTxn hs x).map Prod.fst =
      if (lookupH hs x.ticker).isSome then hs.map Prod.fst
      else hs.map Prod.fst ++ [x.ticker] := by
  cases hq : lookupH hs x.ticker with
  | none =>
    have hmem : x.ticker ∈ ((hs ++ [(x.ticker, (⟨0, 0⟩ : Holding))]).map Prod.fst) := by
      simp
    simp only [processTxn, hq, Option.isSome_none, Bool.false_eq_true, if_false]
    split
    · rw [map_fst_setH _ _ _ hmem]
      simp
    · split
      · split
        · rw [map_fst_setH _ _ _ hmem]
          simp
        · simp
      · simp
  | some v =>
    have hmem : x.ticker ∈ hs.map Prod.fst := by
      by_contra hc
      rw [← lookupH_eq_none] at hc
      rw [hc] at hq
      cases hq
    simp only [processTxn, hq, Option.isSome_some, if_true]
    split
    · rw [map_fst_setH _ _ _ hmem]
    · split
      · split
        · rw [map_fst_setH _ _ _ hmem]
        · rfl
      · rfl

theorem nodupKeys_processTxn (hs : List (String × Holding)) (x : Txn)
    (h : (hs.map Prod.fst).Nodup) : ((processTxn hs x).map Prod.fst).Nodup := by
  rw [map_fst_processTxn]
  cases hq : lookupH hs x.ticker with
  | some v => simp [h]
  | none =>
    have hnmem : x.ticker ∉ hs.map Prod.fst := (lookupH_eq_none hs x.ticker).mp hq
    simp only [Option.isSome_none, Bool.false_eq_true, if_false]
    rw [List.nodup_append]
    refine ⟨h, List.nodup_singleton _, ?_⟩
    intro a ha hat
    simp only [List.mem_singleton] at hat
    subst hat
    exact hnmem ha

theorem nodupKeys_foldl_processTxn (txns : List Txn) (acc : List (String × Holding))
    (h : (acc.map Prod.fst).Nodup) :
    ((txns.foldl processTxn acc).map Prod.fst).Nodup := by
  induction txns generalizing acc with
  | nil => simpa using h
  | cons x rest ih =>
    simp only [List.foldl_cons]
    exact ih _ (nodupKeys_processTxn acc x h)

/-! ## Claim C7 -/

/-- Claim C7: for every portfolio identifier that does not refer to an
existing portfolio, `get_portfolio_holdings` returns the not-found
signal `none`, which is distinct from the empty mapping `some []`
returned for an existing portfolio with no transactions. -/
theorem C7_holdings_not_found (s : Store) (portfolio_id : Nat)
    (h : s.portfolios.contains portfolio_id = false) :
    get_portfolio_holdings s portfolio_id = none ∧
      get_portfolio_holdings s portfolio_id ≠ some [] := by
  have hnm : portfolio_id ∉ s.portfolios := by simpa using h
  have hn : get_portfolio_holdings s portfolio_id = none := by
    simp [get_portfolio_holdings, hnm]
  exact ⟨hn, by simp [hn]⟩

/-- Witness for C7 at the empty store and portfolio id 1. -/
theorem C7_witness :
    get_portfolio_holdings ⟨[], [], []⟩ 1 = none ∧
      get_portfolio_holdings ⟨[], [], []⟩ 1 ≠ some [] :=
  C7_holdings_not_found ⟨[], [], []⟩ 1 (by decide)

/-! ## Claim C8 -/

/-- Claim C8: for every existing portfolio whose transaction list is
empty, `get_portfolio_holdings` returns the empty holdings table
`some []`, not an error or not-found signal. -/
theorem C8_empty_ledger (s : Store) (portfolio_id : Nat)
    (hex : s.portfolios.contains portfolio_id = true)
    (hemp : listTransactions s portfolio_id = []) :
    get_portfolio_holdings s portfolio_id = some [] := by
  have hmem : portfolio_id ∈ s.portfolios := by simpa using hex
  simp [get_portfolio_holdings, hmem, hemp]

/-- Witness for C8 at a store holding portfolio 1 and no transactions. -/
theorem C8_witness : get_portfolio_holdings ⟨[1], [], []⟩ 1 = some [] :=
  C8_empty_ledger ⟨[1], [], []⟩ 1 (by decide) (by decide)

/-! ## Claim C6 -/

/-- Claim C6: for every input whose transaction kind is neither buy nor
sell (after lower-casing), or whose share quantity is ≤ 0, or whose
price per share is ≤ 0, `add_transaction` reports failure (`false`) and
returns the store unchanged, so no transaction is persisted. -/
theorem C6_validation_rejects (s : Store) (portfolio_id : Nat)
    (ticker transaction_type : String) (shares price_per_share : ℚ)
    (transaction_date : Nat) (notes : String)
    (h : ¬ (strLower transaction_type = "buy" ∨ strLower transaction_type = "sell")
      ∨ shares ≤ 0 ∨ price_per_share ≤ 0) :
    add_transaction s portfolio_id ticker transaction_type shares price_per_share
      transaction_date notes = (false, s) := by
  unfold add_transaction
  rcases h with h | h | h
  · rw [if_pos h]
  · by_cases h1 : ¬ (strLower transaction_type = "buy" ∨ strLower transaction_type = "sell")
    · rw [if_pos h1]
    · rw [if_neg h1, if_pos h]
  · by_cases h1 : ¬ (strLower transaction_type = "buy" ∨ strLower transaction_type = "sell")
    · rw [if_pos h1]
    · rw [if_neg h1]
      by_cases h2 : shares ≤ 0
      · rw [if_pos h2]
      · rw [if_neg h2, if_pos h]

/-- Witness for C6 at the invalid kind "hold". -/
theorem C6_witness :
    add_transaction ⟨[1], [], []⟩ 1 "AAPL" "hold" 10 150 0 "" = (false, ⟨[1], [], []⟩) :=
  C6_validation_rejects ⟨[1], [], []⟩ 1 "AAPL" "hold" 10 150 0 "" (Or.inl (by decide))

/-! ## Claim C10 -/

/-- Claim C10: for every portfolio identifier that does not refer to an
existing portfolio, `save_portfolio_snapshot` returns `false` and leaves
the store unchanged (so no snapshot is persisted), even though the
performance computation it calls returns the zeroed result rather than
failing: the existence re-check inside the function rejects the write. -/
theorem C10_snapshot_not_found (prices : PriceSource) (s : Store)
    (portfolio_id now : Nat) (h : s.portfolios.contains portfolio_id = false) :
    save_portfolio_snapshot prices s portfolio_id now = (false, s) ∧
      get_portfolio_performance prices s portfolio_id = some emptyPerformance := by
  have hnm : portfolio_id ∉ s.portfolios := by simpa using h
  have hh : get_portfolio_holdings s portfolio_id = none := by
    simp [get_portfolio_holdings, hnm]
  have hp : get_portfolio_performance prices s portfolio_id = some emptyPerformance := by
    simp [get_portfolio_performance, hh]
  refine ⟨?_, hp⟩
  simp [save_portfolio_snapshot, hp, hnm]

/-- Witness for C10 at the empty store, portfolio id 7. -/
theorem C10_witness :
    save_portfolio_snapshot (fun _ => none) ⟨[], [], []⟩ 7 99 = (false, ⟨[], [], []⟩) ∧
      get_portfolio_performance (fun _ => none) ⟨[], [], []⟩ 7 = some emptyPerformance :=
  C10_snapshot_not_found (fun _ => none) ⟨[], [], []⟩ 7 99 (by decide)

/-! ## Claim C1 -/

/-- Counterexample to claim C1: at the empty store, portfolio id 1 does
not exist, yet `get_portfolio_performance` does not propagate the
failure as `none`: it returns the well-formed zeroed result. -/
theorem C1_counterexample :
    (Store.mk [] [] []).portfolios.contains 1 = false ∧
      get_portfolio_performance (fun _ => none) ⟨[], [], []⟩ 1 ≠ none ∧
      get_portfolio_performance (fun _ => none) ⟨[], [], []⟩ 1 = some emptyPerformance := by
  refine ⟨rfl, ?_, rfl⟩
  intro h
  cases h

/-- Claim C1 as amended: `get_portfolio_performance` does not
distinguish a nonexistent portfolio from an empty one: when the
portfolio does not exist it returns the same well-formed zeroed result
(not `none`) that it returns when the portfolio exists with an empty
transaction list. -/
theorem C1_performance_not_found_amended (prices : PriceSource) (s : Store)
    (portfolio_id : Nat) :
    (s.portfolios.contains portfolio_id = false →
      get_portfolio_performance prices s portfolio_id = some emptyPerformance) ∧
    (s.portfolios.contains portfolio_id = true →
      listTransactions s portfolio_id = [] →
      get_portfolio_performance prices s portfolio_id = some emptyPerformance) := by
  constructor
  · intro h
    have hnm : portfolio_id ∉ s.portfolios := by simpa using h
    have hh : get_portfolio_holdings s portfolio_id = none := by
      simp [get_portfolio_holdings, hnm]
    simp [get_portfolio_performance, hh]
  · intro hex hemp
    have hmem : portfolio_id ∈ s.portfolios := by simpa using hex
    have hh : get_portfolio_holdings s portfolio_id = some [] := by
      simp [get_portfolio_holdings, hmem, hemp]
    simp [get_portfolio_performance, hh]

/-- Witness for C1 (amended) at the empty store, portfolio id 1. -/
theorem C1_witness :
    get_portfolio_performance (fun _ => none) ⟨[], [], []⟩ 1 = some emptyPerformance :=
  (C1_performance_not_found_amended (fun _ => none) ⟨[], [], []⟩ 1).1 (by decide)

/-! ## Claim C2 -/

/-- Claim C2: for an accumulator entry with shares `sh > 0` and total
cost `c`, processing a sell of quantity `q` yields shares `sh - q` and
total cost `c - q * (c / sh)`, and whenever the remaining shares are
nonzero the average cost basis of the remainder is exactly unchanged. -/
theorem C2_sell_preserves_avg (hs : List (String × Holding)) (portfolio_id : Nat)
    (t : String) (q p : ℚ) (d : Nat) (notes : String) (sh c : ℚ)
    (hlook : lookupH hs t = some ⟨sh, c⟩) (hpos : 0 < sh) :
    lookupH (processTxn hs ⟨portfolio_id, t, "sell", q, p, d, notes⟩) t =
        some ⟨sh - q, c - q * (c / sh)⟩ ∧
      (sh - q ≠ 0 → (c - q * (c / sh)) / (sh - q) = c / sh) := by
  constructor
  · have hres : processTxn hs ⟨portfolio_id, t, "sell", q, p, d, notes⟩ =
        setH hs t ⟨sh - q, c - q * (c / sh)⟩ := by
      simp [processTxn, hlook, currentHolding, hpos]
    rw [hres, lookupH_setH_self]
  · intro hne
    have hsh : sh ≠ 0 := ne_of_gt hpos
    field_simp
    ring

/-- Witness for C2: sell 4 out of 10 shares bought for 1500 in total. -/
theorem C2_witness :
    lookupH (processTxn [("AAPL", ⟨10, 1500⟩)] ⟨1, "AAPL", "sell", 4, 100, 2, ""⟩)
        "AAPL" = some ⟨10 - 4, 1500 - 4 * (1500 / 10)⟩ ∧
      ((10 : ℚ) - 4 ≠ 0 → ((1500 : ℚ) - 4 * (1500 / 10)) / (10 - 4) = 1500 / 10) :=
  C2_sell_preserves_avg [("AAPL", ⟨10, 1500⟩)] 1 "AAPL" 4 100 2 "" 10 1500
    (by decide) (by decide)

/-! ## Claim C5 -/

/-- Claim C5: when the current shares of the transaction's ticker are
≤ 0 (also when the ticker has no entry, whose current value is the fresh
zero accumulator), processing a sell leaves the shares and total cost of
every ticker unchanged: the over-sell with no holdings is a no-op on the
accumulator state. -/
theorem C5_oversell_noop (hs : List (String × Holding)) (txn : Txn)
    (hsell : txn.transaction_type = "sell")
    (hnp : (currentHolding hs txn.ticker).total_shares ≤ 0) :
    ∀ t, currentHolding (processTxn hs txn) t = currentHolding hs t := by
  intro t
  cases hq : lookupH hs txn.ticker with
  | some v =>
    have hcur : currentHolding hs txn.ticker = v := by simp [currentHolding, hq]
    rw [hcur] at hnp
    have hngt : ¬ v.total_shares > 0 := not_lt.mpr hnp
    have hres : processTxn hs txn = hs := by
      simp [processTxn, hq, hsell, hngt, currentHolding]
    rw [hres]
  | none =>
    have hcur : currentHolding (hs ++ [(txn.ticker, (⟨0, 0⟩ : Holding))]) txn.ticker =
        ⟨0, 0⟩ := by
      rw [currentHolding, lookupH_append_none _ _ _ hq]
      simp [lookupH]
    have hres : processTxn hs txn = hs ++ [(txn.ticker, (⟨0, 0⟩ : Holding))] := by
      simp [processTxn, hq, hsell, hcur]
    rw [hres, currentHolding_append_zero]

/-- Witness for C5: a sell of 3 shares of a ticker never held. -/
theorem C5_witness :
    currentHolding (processTxn [] ⟨1, "TSLA", "sell", 3, 250, 0, ""⟩) "TSLA" =
      currentHolding [] "TSLA" :=
  C5_oversell_noop [] ⟨1, "TSLA", "sell", 3, 250, 0, ""⟩ (by decide) (by decide) "TSLA"

/-! ## Claim C9 -/

theorem perfFold_from (prices : PriceSource) (rows : List HoldingsRow)
    (acc : List PerfRow × ℚ × ℚ) :
    rows.foldl (perfStep prices) acc =
      (acc.1 ++ (rows.filter fun r => (prices r.ticker).isSome).map (pricedRow prices),
       acc.2.1 + ((rows.filter fun r => (prices r.ticker).isSome).map
         HoldingsRow.total_cost).sum,
       acc.2.2 + ((rows.filter fun r => (prices r.ticker).isSome).map
         (fun r => r.total_shares * (prices r.ticker).getD 0)).sum) := by
  induction rows generalizing acc with
  | nil => simp
  | cons r rest ih =>
    cases hpr : prices r.ticker with
    | none =>
      have hstep : perfStep prices acc r = acc := by
        simp [perfStep, hpr]
      simp only [List.foldl_cons, hstep, List.filter_cons, hpr, Option.isSome_none,
        Bool.false_eq_true, if_false]
      exact ih acc
    | some cp =>
      simp only [List.foldl_cons]
      rw [ih]
      have hstep : perfStep prices acc r =
          (acc.1 ++ [pricedRow prices r], acc.2.1 + r.total_cost,
            acc.2.2 + r.total_shares * cp) := by
        simp [perfStep, hpr, pricedRow]
      rw [hstep]
      simp [List.filter_cons, hpr, pricedRow, List.append_assoc, add_assoc]

/-- Claim C9: a position whose current-price lookup returns no data is
excluded from both the per-position list and every aggregate of
`get_portfolio_performance`: the positions are exactly the priced
holdings rows, the aggregate cost and value are sums over the priced
rows only, and the gain/loss figures derive from those sums; the
unpriced position is not treated as zero-value. -/
theorem C9_unpriced_excluded (prices : PriceSource) (s : Store) (portfolio_id : Nat)
    (rows : List HoldingsRow) (hrows : get_portfolio_holdings s portfolio_id = some rows)
    (hne : rows ≠ []) :
    get_portfolio_performance prices s portfolio_id = some
      ⟨(rows.filter fun r => (prices r.ticker).isSome).map (pricedRow prices),
       ((rows.filter fun r => (prices r.ticker).isSome).map HoldingsRow.total_cost).sum,
       ((rows.filter fun r => (prices r.ticker).isSome).map
         (fun r => r.total_shares * (prices r.ticker).getD 0)).sum,
       ((rows.filter fun r => (prices r.ticker).isSome).map
           (fun r => r.total_shares * (prices r.ticker).getD 0)).sum -
         ((rows.filter fun r => (prices r.ticker).isSome).map HoldingsRow.total_cost).sum,
       if ((rows.filter fun r => (prices r.ticker).isSome).map
           HoldingsRow.total_cost).sum > 0 then
         (((rows.filter fun r => (prices r.ticker).isSome).map
             (fun r => r.total_shares * (prices r.ticker).getD 0)).sum -
           ((rows.filter fun r => (prices r.ticker).isSome).map
             HoldingsRow.total_cost).sum) /
           ((rows.filter fun r => (prices r.ticker).isSome).map
             HoldingsRow.total_cost).sum * 100
       else 0⟩ := by
  have hfold := perfFold_from prices rows ([], 0, 0)
  simp only [List.nil_append, zero_add] at hfold
  simp only [get_portfolio_performance, hrows, if_neg hne, perfOfRows, hfold]

/-- Witness for C9: two positions, one of which (MSFT) is unpriceable;
the positions list and all aggregates cover only the priced AAPL
position. -/
theorem C9_witness :
    get_portfolio_performance (fun t => if t = "AAPL" then some 200 else none)
      ⟨[1], [⟨1, "AAPL", "buy", 10, 150, 1, ""⟩, ⟨1, "MSFT", "buy", 5, 300, 2, ""⟩], []⟩ 1 =
      some ⟨[⟨"AAPL", 10, 150, 200, 1500, 2000, 500, 100 / 3⟩], 1500, 2000, 500, 100 / 3⟩ := by
  have h := C9_unpriced_excluded (fun t => if t = "AAPL" then some 200 else none)
    ⟨[1], [⟨1, "AAPL", "buy", 10, 150, 1, ""⟩, ⟨1, "MSFT", "buy", 5, 300, 2, ""⟩], []⟩ 1
    [⟨"AAPL", 10, 150, 1500⟩, ⟨"MSFT", 5, 300, 1500⟩]
    (by norm_num +decide [get_portfolio_holdings, listTransactions, orderByDate, insertTxn,
      processTxn, holdingsRows, lookupH, setH, currentHolding, List.filterMap_cons])
    (by decide)
  rw [h]
  norm_num +decide [pricedRow, List.filter_cons]

/-! ## Claim C4 -/

/-- Claim C4: the holdings output contains a row for a ticker exactly
when the accumulated shares of that ticker are strictly positive after
the fold; in particular buying `q` shares and then selling exactly `q`
shares leaves the ticker absent from the output. -/
theorem C4_emitted_iff_positive (txns : List Txn) (t tk : String) (q p1 p2 : ℚ)
    (d1 d2 pid : Nat) (n1 n2 : String) (hq : 0 < q) :
    ((∃ row ∈ holdingsRows (txns.foldl processTxn []), row.ticker = t) ↔
      (∃ h, lookupH (txns.foldl processTxn []) t = some h ∧ 0 < h.total_shares)) ∧
    holdingsRows ([⟨pid, tk, "buy", q, p1, d1, n1⟩,
      ⟨pid, tk, "sell", q, p2, d2, n2⟩].foldl processTxn []) = [] := by
  constructor
  · constructor
    · rintro ⟨row, hrow, hticker⟩
      rw [holdingsRows, List.mem_filterMap] at hrow
      obtain ⟨⟨k, v⟩, hmem, hf⟩ := hrow
      by_cases hvp : v.total_shares > 0
      · rw [if_pos hvp] at hf
        have hrow_eq := Option.some.inj hf
        have hrk : row.ticker = k := by
          rw [← hrow_eq]
        rw [hticker] at hrk
        subst hrk
        have hnd : (((txns.foldl processTxn []).map Prod.fst)).Nodup :=
          nodupKeys_foldl_processTxn txns [] (by simp)
        exact ⟨v, lookupH_of_mem _ _ _ hnd hmem, hvp⟩
      · rw [if_neg hvp] at hf
        cases hf
    · rintro ⟨hv, hlook, hpos⟩
      refine ⟨⟨t, hv.total_shares, hv.total_cost / hv.total_shares, hv.total_cost⟩,
        ?_, rfl⟩
      rw [holdingsRows, List.mem_filterMap]
      exact ⟨(t, hv), mem_of_lookupH _ _ _ hlook, by rw [if_pos hpos]⟩
  · have h1 : processTxn [] ⟨pid, tk, "buy", q, p1, d1, n1⟩ =
        [(tk, ⟨q, q * p1⟩)] := by
      simp [processTxn, lookupH, setH, currentHolding]
    have h2 : processTxn [(tk, (⟨q, q * p1⟩ : Holding))] ⟨pid, tk, "sell", q, p2, d2, n2⟩ =
        [(tk, ⟨q - q, q * p1 - q * (q * p1 / q)⟩)] := by
      simp [processTxn, lookupH, setH, currentHolding, hq]
    rw [List.foldl_cons, List.foldl_cons, List.foldl_nil, h1, h2]
    simp [holdingsRows]

/-- Witness for C4: full liquidation of 5 TSLA shares bought at 200 and
sold at 250 leaves the output empty; the membership characterization is
instantiated at the empty transaction list. -/
theorem C4_witness :
    ((∃ row ∈ holdingsRows (([] : List Txn).foldl processTxn []), row.ticker = "TSLA") ↔
      (∃ h, lookupH (([] : List Txn).foldl processTxn []) "TSLA" = some h ∧
        0 < h.total_shares)) ∧
    holdingsRows ([⟨1, "TSLA", "buy", 5, 200, 1, ""⟩,
      ⟨1, "TSLA", "sell", 5, 250, 2, ""⟩].foldl processTxn []) = [] :=
  C4_emitted_iff_positive [] "TSLA" "TSLA" 5 200 250 1 2 1 "" "" (by norm_num)

/-! ## Claim C3 -/

theorem insertTxn_perm (x : Txn) (l : List Txn) : (insertTxn x l).Perm (x :: l) := by
  induction l with
  | nil => simp [insertTxn]
  | cons y ys ih =>
    by_cases h : y.transaction_date ≤ x.transaction_date
    · rw [insertTxn, if_pos h]
      exact (ih.cons y).trans (List.Perm.swap x y ys)
    · rw [insertTxn, if_neg h]

theorem foldl_insertTxn_perm (l acc : List Txn) :
    (l.foldl (fun acc x => insertTxn x acc) acc).Perm (acc ++ l) := by
  induction l generalizing acc with
  | nil => simp
  | cons x xs ih =>
    simp only [List.foldl_cons]
    refine (ih (insertTxn x acc)).trans ?_
    refine ((insertTxn_perm x acc).append_right xs).trans ?_
    exact List.perm_middle.symm

theorem orderByDate_perm (l : List Txn) : (orderByDate l).Perm l := by
  simpa [orderByDate] using foldl_insertTxn_perm l []

theorem foldl_buys_acc (t : String) (l : List Txn) (a b : ℚ)
    (hall : ∀ x ∈ l, x.ticker = t ∧ x.transaction_type = "buy") :
    l.foldl processTxn [(t, ⟨a, b⟩)] =
      [(t, ⟨a + (l.map Txn.shares).sum,
        b + (l.map fun x => x.shares * x.price_per_share).sum⟩)] := by
  induction l generalizing a b with
  | nil => simp
  | cons x xs ih =>
    obtain ⟨hxt, hxb⟩ := hall x (List.mem_cons_self x xs)
    have hstep : processTxn [(t, (⟨a, b⟩ : Holding))] x =
        [(t, ⟨a + x.shares, b + x.shares * x.price_per_share⟩)] := by
      simp [processTxn, hxt, hxb, lookupH, setH, currentHolding]
    rw [List.foldl_cons, hstep,
      ih _ _ (fun y hy => hall y (List.mem_cons_of_mem x hy))]
    simp [add_assoc]

theorem foldl_buys (t : String) (l : List Txn) (hne : l ≠ [])
    (hall : ∀ x ∈ l, x.ticker = t ∧ x.transaction_type = "buy") :
    l.foldl processTxn [] =
      [(t, ⟨(l.map Txn.shares).sum,
        (l.map fun x => x.shares * x.price_per_share).sum⟩)] := by
  cases l with
  | nil => cases hne rfl
  | cons y ys =>
    obtain ⟨hyt, hyb⟩ := hall y (List.mem_cons_self y ys)
    have hstart : processTxn [] y = [(t, ⟨y.shares, y.shares * y.price_per_share⟩)] := by
      simp [processTxn, hyt, hyb, lookupH, setH, currentHolding]
    rw [List.foldl_cons, hstart,
      foldl_buys_acc t ys _ _ (fun x hx => hall x (List.mem_cons_of_mem y hx))]
    simp

/-- Claim C3: for a nonempty transaction sequence containing only buy
transactions for one ticker (each with positive share quantity, as
validation guarantees for stored rows), `get_portfolio_holdings` yields
a single row for that ticker whose total shares are the sum of the
quantities, whose total cost is the sum of quantity × price over the
buys, and whose average cost basis is total cost divided by total
shares. -/
theorem C3_only_buys (pid : Nat) (t : String) (txns : List Txn) (hne : txns ≠ [])
    (hall : ∀ x ∈ txns, x.portfolio_id = pid ∧ x.ticker = t ∧
      x.transaction_type = "buy" ∧ 0 < x.shares) :
    get_portfolio_holdings ⟨[pid], txns, []⟩ pid =
      some [⟨t, (txns.map Txn.shares).sum,
        (txns.map fun x => x.shares * x.price_per_share).sum / (txns.map Txn.shares).sum,
        (txns.map fun x => x.shares * x.price_per_share).sum⟩] := by
  have hfilter : (Store.mk [pid] txns []).transactions.filter
      (fun x => x.portfolio_id = pid) = txns := by
    apply List.filter_eq_self.mpr
    intro a ha
    simp [(hall a ha).1]
  have hlist : listTransactions ⟨[pid], txns, []⟩ pid = orderByDate txns := by
    rw [listTransactions, hfilter]
  have hperm : (orderByDate txns).Perm txns := orderByDate_perm txns
  have hsorted_ne : orderByDate txns ≠ [] := by
    intro h0
    rw [h0] at hperm
    exact hne (List.perm_nil.mp hperm.symm)
  have hall2 : ∀ x ∈ orderByDate txns, x.ticker = t ∧ x.transaction_type = "buy" := by
    intro x hx
    have hx2 := hperm.mem_iff.mp hx
    exact ⟨(hall x hx2).2.1, (hall x hx2).2.2.1⟩
  have hfold := foldl_buys t (orderByDate txns) hsorted_ne hall2
  have hsum1 : ((orderByDate txns).map Txn.shares).sum = (txns.map Txn.shares).sum :=
    (hperm.map Txn.shares).sum_eq
  have hsum2 : ((orderByDate txns).map fun x => x.shares * x.price_per_share).sum =
      (txns.map fun x => x.shares * x.price_per_share).sum :=
    (hperm.map _).sum_eq
  have hpos : 0 < (txns.map Txn.shares).sum := by
    apply List.sum_pos
    · intro a ha
      obtain ⟨x, hx, rfl⟩ := List.mem_map.mp ha
      exact (hall x hx).2.2.2
    · simp [hne]
  have hmem : pid ∈ (Store.mk [pid] txns []).portfolios := by simp
  have hunfold : get_portfolio_holdings ⟨[pid], txns, []⟩ pid =
      some (holdingsRows ((orderByDate txns).foldl processTxn [])) := by
    simp [get_portfolio_holdings, hlist, hsorted_ne, hmem]
  rw [hunfold, hfold, hsum1, hsum2]
  simp [holdingsRows, hpos]

/-- Witness for C3: two buys of AAPL, 10 at 150 and 5 at 160. -/
theorem C3_witness :
    get_portfolio_holdings
      ⟨[1], [⟨1, "AAPL", "buy", 10, 150, 1, ""⟩, ⟨1, "AAPL", "buy", 5, 160, 2, ""⟩], []⟩ 1 =
      some [⟨"AAPL", 15, 2300 / 15, 2300⟩] := by
  have h := C3_only_buys 1 "AAPL"
    [⟨1, "AAPL", "buy", 10, 150, 1, ""⟩, ⟨1, "AAPL", "buy", 5, 160, 2, ""⟩]
    (by decide)
    (by decide)
  rw [h]
  norm_num
